import Mathlib

/-!
Shallow embedding of the Task Tracker event-log store and projection engine
from `src/server.js`: the data model for events and tasks, the replay fold of
`readProjection`, the id generator `makeId`, and the write paths of the
create and delete HTTP handlers.  JavaScript strings become `String`,
possibly-absent JSON fields become `Option String` (`none` = `undefined`),
the JavaScript `Map`/`Set` pair of the fold becomes insertion-ordered lists,
and `JSON.parse` is an injected parameter where it matters.
-/

namespace TaskTracker

/-- One projected task, as built by the `create` branch of `readProjection`.
Fields copied straight off the parsed event may be absent in a hand-written
log line (JavaScript `undefined`), hence `Option String`; `description` and
`createdAt` are defaulted in the code (`evt.description || ''`,
`evt.createdAt || new Date().toISOString()`), hence plain `String`. -/
structure Task where
  id : Option String
  name : Option String
  date : Option String
  time : Option String
  description : String
  createdAt : String
deriving DecidableEq

/-- A parsed JSON event line.  Every field is optional, since a JSON object
need not carry any of them; only string-valued fields are modelled, which is
all the log writer ever emits. -/
structure Evt where
  type : Option String := none
  id : Option String := none
  name : Option String := none
  date : Option String := none
  time : Option String := none
  description : Option String := none
  createdAt : Option String := none
  deletedAt : Option String := none
deriving DecidableEq

/-- One line of the log as seen by the replay loop: either it parses to a
JSON object (`evt`) or `JSON.parse` throws (`bad`, carrying the raw text,
which the code only logs to the console). -/
inductive Line where
  | evt (e : Evt)
  | bad (raw : String)
deriving DecidableEq

/-- JavaScript `v || dflt` for an optional string `v`: a string is falsy
exactly when it is empty, and an absent field is falsy. -/
def jsOr (v : Option String) (dflt : String) : String :=
  match v with
  | none => dflt
  | some s => if s = "" then dflt else s

/-- JavaScript truthiness of an optional string (`name` guard, `date ? _ : _`). -/
def truthy (v : Option String) : Bool :=
  match v with
  | none => false
  | some s => decide (s ≠ "")

/-- A JavaScript whitespace character, as far as the log writer's inputs go
(`String.prototype.trim` removes leading and trailing whitespace). -/
def isSpaceChar (c : Char) : Bool :=
  decide (c = ' ') || decide (c = '\t') || decide (c = '\n') || decide (c = '\r')

/-- Drop leading and trailing whitespace characters. -/
def trimChars (l : List Char) : List Char :=
  ((l.dropWhile isSpaceChar).reverse.dropWhile isSpaceChar).reverse

/-- JavaScript `s.trim()`. -/
def jsTrim (s : String) : String := String.mk (trimChars s.data)

/-- JavaScript `s.split('\n')` on the character list: always returns at least
one (possibly empty) piece. -/
def splitNl : List Char → List (List Char)
  | [] => [[]]
  | x :: xs =>
    match splitNl xs with
    | [] => [[]]
    | cur :: rest => if x = '\n' then [] :: cur :: rest else (x :: cur) :: rest

/-- The task object built by the `create` branch of the replay loop:
`{id: evt.id, name: evt.name, date: evt.date, time: evt.time,
description: evt.description || '', createdAt: evt.createdAt || now}`.
`now` stands for `new Date().toISOString()`. -/
def mkTask (now : String) (e : Evt) : Task :=
  { id := e.id, name := e.name, date := e.date, time := e.time,
    description := jsOr e.description "",
    createdAt := jsOr e.createdAt now }

/-- Base-36 digit character, `0`-`9` then `a`-`z`, as produced by
`Number.prototype.toString(36)`. -/
def digitChar36 (n : Nat) : Char :=
  if n < 10 then Char.ofNat (48 + n) else Char.ofNat (87 + n)

/-- Big-endian base-36 digits of `n` accumulated onto `acc`. -/
def toBase36Go (n : Nat) (acc : List Char) : List Char :=
  if h : n = 0 then acc
  else toBase36Go (n / 36) (digitChar36 (n % 36) :: acc)
termination_by n
decreasing_by exact Nat.div_lt_self (Nat.pos_of_ne_zero h) (by decide)

/-- `n.toString(36)` for a natural number `n`. -/
def toBase36 (n : Nat) : String :=
  if n = 0 then "0" else String.mk (toBase36Go n [])

/-- `makeId`: the template literal `t_${Date.now().toString(36)}_${rand}`,
with the clock reading and the random draw passed in explicitly since both
are nondeterministic inputs of the code. -/
def makeId (nowMs rand : Nat) : String :=
  "t_" ++ (toBase36 nowMs ++ ("_" ++ toBase36 rand))

/-- JavaScript `Map.set` on an insertion-ordered association list: updating
an existing key keeps its position, a new key is appended (this is `Map`
iteration order, which `Array.from(tasks.values())` exposes). -/
def mapSet (m : List (Option String × Task)) (k : Option String) (v : Task) :
    List (Option String × Task) :=
  if m.any (fun p => decide (p.1 = k)) then
    m.map (fun p => if p.1 = k then (k, v) else p)
  else m ++ [(k, v)]

/-- JavaScript `Map.delete` on the same representation. -/
def mapDelete (m : List (Option String × Task)) (k : Option String) :
    List (Option String × Task) :=
  m.filter (fun p => decide (p.1 ≠ k))

/-- JavaScript `Set.add` on an insertion-ordered list of members. -/
def setAdd (s : List (Option String)) (k : Option String) :
    List (Option String) :=
  if k ∈ s then s else s ++ [k]

/-- The replay state of `readProjection`: `tasks` (id → task, ordered) and
the accumulated `deleted` set. -/
structure ProjState where
  tasks : List (Option String × Task)
  deleted : List (Option String)
deriving DecidableEq

/-- One iteration of the replay loop of `readProjection`: a line that fails
to parse is skipped, a `create` upserts the task, a `delete` records the id
and evicts it from the map, anything else is ignored. -/
def applyLine (now : String) (st : ProjState) (l : Line) : ProjState :=
  match l with
  | .bad _ => st
  | .evt e =>
    if e.type = some "create" then
      { st with tasks := mapSet st.tasks e.id (mkTask now e) }
    else if e.type = some "delete" then
      { tasks := mapDelete st.tasks e.id, deleted := setAdd st.deleted e.id }
    else st

/-- The replay fold of `readProjection`, starting from the empty map and the
empty deleted set. -/
def projectState (now : String) (ls : List Line) : ProjState :=
  ls.foldl (applyLine now) ⟨[], []⟩

/-- `readProjection`'s return value `Array.from(tasks.values())`, for an
already-split, already-parsed list of log lines. -/
def projectTasks (now : String) (ls : List Line) : List Task :=
  (projectState now ls).tasks.map Prod.snd

/-- `data.split('\n').filter(Boolean)`: split on newlines and drop the empty
pieces (a JavaScript string is truthy exactly when non-empty). -/
def splitLines (data : String) : List String :=
  ((splitNl data.data).map String.mk).filter (fun l => decide (l ≠ ""))

/-- The whole of `readProjection` against an abstract file (`none` = file
missing), with `JSON.parse` injected as `parse` (`none` = the parse throws).
Returns the file contents after the call paired with the projected tasks:
a missing file is first created empty (`fs.writeFileSync(EVENT_FILE, '')`)
and then read back. -/
def readProjection (parse : String → Option Evt) (now : String)
    (file : Option String) : Option String × List Task :=
  let contents := match file with | none => "" | some c => c
  let ls := (splitLines contents).map
    (fun raw => match parse raw with | some e => Line.evt e | none => Line.bad raw)
  (some contents, projectTasks now ls)

/-- Write path of `POST /api/tasks`: reject a falsy name (HTTP 400, modelled
as `none`), otherwise build the `create` event — name trimmed, date, time
and description defaulted to `""` when falsy — append it to the log and
return the new id.  `nowMs`/`rand` feed `makeId`, `nowIso` stands for
`new Date().toISOString()`. -/
def appendCreate (log : List Line) (nowMs rand : Nat) (nowIso : String)
    (name date time description : Option String) :
    Option (List Line × String) :=
  if truthy name then
    let id := makeId nowMs rand
    some (log ++ [Line.evt {
      type := some "create", id := some id,
      name := some (jsTrim (name.getD "")),
      date := some (jsOr date ""), time := some (jsOr time ""),
      description := some (jsOr description ""),
      createdAt := some nowIso }], id)
  else none

/-- Write path of `DELETE /api/tasks/:id`: reject a falsy id (HTTP 400,
modelled as `none`), otherwise append the `delete` event. -/
def appendDelete (log : List Line) (id deletedAt : String) :
    Option (List Line) :=
  if id = "" then none
  else some (log ++ [Line.evt {
    type := some "delete", id := some id,
    deletedAt := some deletedAt }])

/-- Modelled from the spec, for the delete-set-irrelevance comparison: the
replay fold "with the deleted-id set removed", otherwise identical to
`applyLine`. -/
def applyLineNoSet (now : String) (m : List (Option String × Task)) (l : Line) :
    List (Option String × Task) :=
  match l with
  | .bad _ => m
  | .evt e =>
    if e.type = some "create" then mapSet m e.id (mkTask now e)
    else if e.type = some "delete" then mapDelete m e.id
    else m

/-- The projected task list computed by the set-free fold. -/
def projectTasksNoSet (now : String) (ls : List Line) : List Task :=
  (ls.foldl (applyLineNoSet now) []).map Prod.snd

/-- A line the replay loop acts on: an unparsable line (kept: it is merely
skipped, which is part of the behaviour under test) or a parsed event of
type `create` or `delete`.  Valid-JSON lines of any other type are the ones
projection ignores. -/
def handled (l : Line) : Bool :=
  match l with
  | .bad _ => true
  | .evt e => decide (e.type = some "create") || decide (e.type = some "delete")

/-- The keys of the task map, in order. -/
def keysOf (m : List (Option String × Task)) : List (Option String) :=
  m.map Prod.fst

/-- The entries of the task map carrying key `k`, in order. -/
def entriesFor (m : List (Option String × Task)) (k : Option String) :
    List (Option String × Task) :=
  m.filter (fun p => decide (p.1 = k))

/-- Every map entry's task records the key it is stored under
(`tasks.set(evt.id, {id: evt.id, ...})`). -/
def idInv (m : List (Option String × Task)) : Prop :=
  ∀ p ∈ m, p.2.id = p.1

/-- Sample `create` event: exactly what `appendCreate` emits for name `"a"`
(or `" a "`, after trimming) with every optional field omitted, clock and
random draw both `0`. -/
def sampleCreate : Evt :=
  { type := some "create", id := some "t_0_0", name := some "a",
    date := some "", time := some "", description := some "",
    createdAt := some "T" }

/-- Sample second `create` event for the same id with different fields. -/
def sampleCreate2 : Evt :=
  { type := some "create", id := some "t_0_0", name := some "b",
    date := some "2025-10-25", time := some "14:30",
    description := some "second", createdAt := some "T2" }

/-- Sample `create` event for a different id. -/
def sampleOther : Evt :=
  { type := some "create", id := some "t_xyz", name := some "other",
    date := some "", time := some "", description := some "",
    createdAt := some "T3" }

/-- Sample `delete` event for the id of `sampleCreate`. -/
def sampleDelete : Evt :=
  { type := some "delete", id := some "t_0_0", deletedAt := some "D" }

theorem keysOf_cons (a : Option String × Task) (m : List (Option String × Task)) :
    keysOf (a :: m) = a.1 :: keysOf m := rfl

theorem mem_keysOf (m : List (Option String × Task)) (k : Option String) :
    k ∈ keysOf m ↔ ∃ p ∈ m, p.1 = k := by
  constructor
  · intro h
    rcases List.mem_map.1 h with ⟨p, hp, hk⟩
    exact ⟨p, hp, hk⟩
  · intro ⟨p, hp, hk⟩
    exact List.mem_map.2 ⟨p, hp, hk⟩

theorem any_key_iff (m : List (Option String × Task)) (k : Option String) :
    (m.any (fun p => decide (p.1 = k)) = true) ↔ k ∈ keysOf m := by
  rw [List.any_eq_true, mem_keysOf]
  constructor
  · intro ⟨p, hp, hk⟩
    exact ⟨p, hp, of_decide_eq_true hk⟩
  · intro ⟨p, hp, hk⟩
    exact ⟨p, hp, decide_eq_true hk⟩

theorem keysOf_replace (m : List (Option String × Task)) (k : Option String)
    (v : Task) :
    keysOf (m.map (fun p => if p.1 = k then (k, v) else p)) = keysOf m := by
  induction m with
  | nil => rfl
  | cons a m ih =>
    rw [List.map_cons, keysOf_cons, keysOf_cons, ih]
    by_cases h : a.1 = k
    · rw [if_pos h, h]
    · rw [if_neg h]

theorem entriesFor_of_not_mem (m : List (Option String × Task))
    (k : Option String) (h : k ∉ keysOf m) : entriesFor m k = [] := by
  induction m with
  | nil => rfl
  | cons a m ih =>
    rw [keysOf_cons] at h
    simp only [List.mem_cons, not_or] at h
    rw [entriesFor, List.filter_cons,
        if_neg (by simp only [decide_eq_true_eq]; exact fun he => h.1 he.symm)]
    exact ih h.2

theorem entriesFor_replace (m : List (Option String × Task)) (k : Option String)
    (v : Task) (hnd : (keysOf m).Nodup) (hmem : k ∈ keysOf m) :
    entriesFor (m.map (fun p => if p.1 = k then (k, v) else p)) k = [(k, v)] := by
  induction m with
  | nil => simp [keysOf] at hmem
  | cons a m ih =>
    rw [keysOf_cons, List.nodup_cons] at hnd
    rw [keysOf_cons, List.mem_cons] at hmem
    by_cases h : a.1 = k
    · have hnot : k ∉ keysOf m := h ▸ hnd.1
      have htail : entriesFor (m.map (fun p => if p.1 = k then (k, v) else p)) k
          = [] := by
        apply entriesFor_of_not_mem
        rw [keysOf_replace]
        exact hnot
      rw [entriesFor] at htail
      rw [List.map_cons, if_pos h, entriesFor, List.filter_cons,
          if_pos (by simp), htail]
    · rcases hmem with hmem | hmem
      · exact absurd hmem.symm h
      · rw [List.map_cons, if_neg h, entriesFor, List.filter_cons,
            if_neg (by simpa using h)]
        exact ih hnd.2 hmem

theorem entriesFor_mapSet_self (m : List (Option String × Task))
    (k : Option String) (v : Task) (hnd : (keysOf m).Nodup) :
    entriesFor (mapSet m k v) k = [(k, v)] := by
  rw [mapSet]
  by_cases h : m.any (fun p => decide (p.1 = k)) = true
  · rw [if_pos h]
    exact entriesFor_replace m k v hnd ((any_key_iff m k).1 h)
  · rw [if_neg h]
    have hk : k ∉ keysOf m := fun hc => h ((any_key_iff m k).2 hc)
    have htail := entriesFor_of_not_mem m k hk
    rw [entriesFor] at htail
    rw [entriesFor, List.filter_append, htail, List.nil_append,
        List.filter_cons, if_pos (by simp)]
    rfl

theorem keysOf_mapSet_nodup (m : List (Option String × Task))
    (k : Option String) (v : Task) (hnd : (keysOf m).Nodup) :
    (keysOf (mapSet m k v)).Nodup := by
  rw [mapSet]
  by_cases h : m.any (fun p => decide (p.1 = k)) = true
  · rw [if_pos h, keysOf_replace]; exact hnd
  · rw [if_neg h]
    have hk : k ∉ keysOf m := fun hc => h ((any_key_iff m k).2 hc)
    have hkeys : keysOf (m ++ [(k, v)]) = keysOf m ++ [k] := by
      rw [keysOf, List.map_append]; rfl
    rw [hkeys, List.nodup_append]
    exact ⟨hnd, List.nodup_singleton k,
      fun x hx hxk => hk (by rwa [List.mem_singleton.1 hxk] at hx)⟩

theorem keysOf_mapDelete_nodup (m : List (Option String × Task))
    (k : Option String) (hnd : (keysOf m).Nodup) :
    (keysOf (mapDelete m k)).Nodup := by
  apply List.Nodup.sublist _ hnd
  exact List.Sublist.map Prod.fst (List.filter_sublist m)

theorem idInv_mapSet (m : List (Option String × Task)) (k : Option String)
    (v : Task) (h : idInv m) (hv : v.id = k) : idInv (mapSet m k v) := by
  rw [mapSet]
  by_cases hc : m.any (fun p => decide (p.1 = k)) = true
  · rw [if_pos hc]
    intro p hp
    rcases List.mem_map.1 hp with ⟨q, hq, rfl⟩
    by_cases hqk : q.1 = k <;> simp [hqk, hv, h q hq]
  · rw [if_neg hc]
    intro p hp
    rcases List.mem_append.1 hp with hp | hp
    · exact h p hp
    · simp at hp; simp [hp, hv]

theorem idInv_mapDelete (m : List (Option String × Task)) (k : Option String)
    (h : idInv m) : idInv (mapDelete m k) := by
  intro p hp
  exact h p (List.mem_filter.1 hp).1

theorem applyLine_idInv (now : String) (st : ProjState) (l : Line)
    (h : idInv st.tasks) : idInv (applyLine now st l).tasks := by
  cases l with
  | bad raw => exact h
  | evt e =>
    rw [applyLine]
    by_cases hc : e.type = some "create"
    · rw [if_pos hc]
      exact idInv_mapSet st.tasks e.id (mkTask now e) h rfl
    · rw [if_neg hc]
      by_cases hd : e.type = some "delete"
      · rw [if_pos hd]
        exact idInv_mapDelete st.tasks e.id h
      · rw [if_neg hd]
        exact h

theorem applyLine_nodup (now : String) (st : ProjState) (l : Line)
    (h : (keysOf st.tasks).Nodup) : (keysOf (applyLine now st l).tasks).Nodup := by
  cases l with
  | bad raw => exact h
  | evt e =>
    rw [applyLine]
    by_cases hc : e.type = some "create"
    · rw [if_pos hc]
      exact keysOf_mapSet_nodup st.tasks e.id (mkTask now e) h
    · rw [if_neg hc]
      by_cases hd : e.type = some "delete"
      · rw [if_pos hd]
        exact keysOf_mapDelete_nodup st.tasks e.id h
      · rw [if_neg hd]
        exact h

theorem foldl_idInv (now : String) (ls : List Line) (st : ProjState)
    (h : idInv st.tasks) : idInv (ls.foldl (applyLine now) st).tasks := by
  induction ls generalizing st with
  | nil => exact h
  | cons l ls ih =>
    rw [List.foldl_cons]
    exact ih (applyLine now st l) (applyLine_idInv now st l h)

theorem foldl_nodup (now : String) (ls : List Line) (st : ProjState)
    (h : (keysOf st.tasks).Nodup) :
    (keysOf (ls.foldl (applyLine now) st).tasks).Nodup := by
  induction ls generalizing st with
  | nil => exact h
  | cons l ls ih =>
    rw [List.foldl_cons]
    exact ih (applyLine now st l) (applyLine_nodup now st l h)

theorem projectState_idInv (now : String) (ls : List Line) :
    idInv (projectState now ls).tasks :=
  foldl_idInv now ls ⟨[], []⟩ (fun p hp => absurd hp (List.not_mem_nil p))

theorem projectState_nodup (now : String) (ls : List Line) :
    (keysOf (projectState now ls).tasks).Nodup :=
  foldl_nodup now ls ⟨[], []⟩ List.nodup_nil

theorem projectState_append_one (now : String) (ls : List Line) (l : Line) :
    projectState now (ls ++ [l]) = applyLine now (projectState now ls) l := by
  rw [projectState, projectState, List.foldl_append, List.foldl_cons,
      List.foldl_nil]

theorem filter_map_snd (m : List (Option String × Task)) (h : idInv m)
    (k : Option String) :
    (m.map Prod.snd).filter (fun t => decide (t.id = k))
      = (entriesFor m k).map Prod.snd := by
  induction m with
  | nil => rfl
  | cons a m ih =>
    have ha : a.2.id = a.1 := h a (List.mem_cons_self a m)
    have h' : idInv m := fun p hp => h p (List.mem_cons_of_mem a hp)
    by_cases hk : a.1 = k
    · rw [List.map_cons, List.filter_cons, if_pos (by simp [ha, hk]),
          entriesFor, List.filter_cons, if_pos (by simp [hk]), List.map_cons]
      rw [entriesFor] at ih
      rw [ih h']
    · rw [List.map_cons, List.filter_cons,
          if_neg (by simp only [decide_eq_true_eq, ha]; exact hk),
          entriesFor, List.filter_cons, if_neg (by simpa using hk)]
      rw [entriesFor] at ih
      rw [ih h']

theorem filter_project_append_create (now : String) (pre : List Line) (e : Evt)
    (i : String) (he : e.type = some "create") (hei : e.id = some i) :
    (projectTasks now (pre ++ [.evt e])).filter (fun t => decide (t.id = some i))
      = [mkTask now e] := by
  rw [projectTasks, filter_map_snd ((projectState now (pre ++ [Line.evt e])).tasks)
        (projectState_idInv now (pre ++ [Line.evt e])) (some i),
      projectState_append_one, applyLine, if_pos he]
  rw [← hei, entriesFor_mapSet_self _ _ _ (projectState_nodup now pre)]
  rfl

theorem not_mem_keysOf_mapSet (m : List (Option String × Task))
    (k k' : Option String) (v : Task) (hm : k ∉ keysOf m) (hne : k ≠ k') :
    k ∉ keysOf (mapSet m k' v) := by
  rw [mapSet]
  by_cases h : m.any (fun p => decide (p.1 = k')) = true
  · rw [if_pos h, keysOf_replace]
    exact hm
  · rw [if_neg h]
    intro hc
    rw [keysOf, List.map_append] at hc
    rcases List.mem_append.1 hc with hc | hc
    · exact hm hc
    · simp at hc
      exact hne hc

theorem not_mem_keysOf_mapDelete (m : List (Option String × Task))
    (k k' : Option String) (hm : k ∉ keysOf m) : k ∉ keysOf (mapDelete m k') := by
  intro hc
  rcases (mem_keysOf _ k).1 hc with ⟨p, hp, hpk⟩
  exact hm ((mem_keysOf m k).2 ⟨p, (List.mem_filter.1 hp).1, hpk⟩)

theorem foldl_key_absent (now : String) (ls : List Line) (k : Option String)
    (st : ProjState) (hst : k ∉ keysOf st.tasks)
    (hno : ∀ e, Line.evt e ∈ ls → e.type = some "create" → e.id ≠ k) :
    k ∉ keysOf (ls.foldl (applyLine now) st).tasks := by
  induction ls generalizing st with
  | nil => exact hst
  | cons l ls ih =>
    rw [List.foldl_cons]
    refine ih (applyLine now st l) ?_
      (fun e he hc => hno e (List.mem_cons_of_mem l he) hc)
    cases l with
    | bad raw => exact hst
    | evt e =>
      rw [applyLine]
      by_cases hc : e.type = some "create"
      · rw [if_pos hc]
        exact not_mem_keysOf_mapSet st.tasks k e.id (mkTask now e) hst
          (fun hk => hno e (List.mem_cons_self _ _) hc (hk ▸ rfl))
      · rw [if_neg hc]
        by_cases hd : e.type = some "delete"
        · rw [if_pos hd]
          exact not_mem_keysOf_mapDelete st.tasks k e.id hst
        · rw [if_neg hd]
          exact hst

theorem mapDelete_of_not_mem (m : List (Option String × Task))
    (k : Option String) (h : k ∉ keysOf m) : mapDelete m k = m := by
  rw [mapDelete, List.filter_eq_self]
  intro p hp
  simp only [decide_eq_true_eq]
  exact fun hpk => h ((mem_keysOf m k).2 ⟨p, hp, hpk⟩)

theorem applyLine_unhandled (now : String) (st : ProjState) (l : Line)
    (h : handled l = false) : applyLine now st l = st := by
  cases l with
  | bad raw => rfl
  | evt e =>
    rw [handled, Bool.or_eq_false_iff, decide_eq_false_iff_not,
        decide_eq_false_iff_not] at h
    rw [applyLine, if_neg h.1, if_neg h.2]

theorem foldl_filter_handled (now : String) (ls : List Line) (st : ProjState) :
    (ls.filter handled).foldl (applyLine now) st = ls.foldl (applyLine now) st := by
  induction ls generalizing st with
  | nil => rfl
  | cons l ls ih =>
    rw [List.filter_cons]
    by_cases h : handled l = true
    · rw [if_pos h, List.foldl_cons, List.foldl_cons, ih]
    · rw [if_neg h, List.foldl_cons, ih,
          applyLine_unhandled now st l (Bool.eq_false_iff.2 h)]

theorem applyLine_tasks_noset (now : String) (st : ProjState) (l : Line) :
    (applyLine now st l).tasks = applyLineNoSet now st.tasks l := by
  cases l with
  | bad raw => rfl
  | evt e =>
    rw [applyLine, applyLineNoSet]
    by_cases hc : e.type = some "create"
    · rw [if_pos hc, if_pos hc]
    · rw [if_neg hc, if_neg hc]
      by_cases hd : e.type = some "delete"
      · rw [if_pos hd, if_pos hd]
      · rw [if_neg hd, if_neg hd]

theorem foldl_tasks_noset (now : String) (ls : List Line) (st : ProjState) :
    (ls.foldl (applyLine now) st).tasks
      = ls.foldl (applyLineNoSet now) st.tasks := by
  induction ls generalizing st with
  | nil => rfl
  | cons l ls ih =>
    rw [List.foldl_cons, List.foldl_cons, ih, applyLine_tasks_noset]

theorem makeId_ne_empty (nowMs rand : Nat) : makeId nowMs rand ≠ "" := by
  intro h
  have hlen := congrArg String.length h
  rw [makeId, String.length_append] at hlen
  have h2 : ("t_" : String).length = 2 := rfl
  have h0 : ("" : String).length = 0 := rfl
  rw [h2, h0] at hlen
  omega

theorem jsOr_jsOr (d : Option String) : jsOr (some (jsOr d "")) "" = jsOr d "" := by
  cases d with
  | none => rfl
  | some s =>
    by_cases h : s = ""
    · subst h; rfl
    · have hs : jsOr (some s) "" = s := by rw [jsOr, if_neg h]
      rw [hs, hs]

/-- Claim C1 counterexample: the write path trims the submitted name, so the
valid field set with the non-empty name `" a "` does not round-trip as
claimed — the projected task's name is `"a"`, not the submitted `" a "`. -/
theorem create_roundtrip_cex :
    (appendCreate [] 0 0 "T" (some " a ") none none none).map
        (fun pr => (projectTasks "N" pr.1).map Task.name) = some [some "a"]
      ∧ some " a " ≠ some ("a" : String) :=
  ⟨rfl, by decide⟩

/-- Claim C1 (amended): round-trip up to name trimming — for every valid
field set (non-empty name), `appendCreate` on the empty log followed by
projection yields exactly one task whose name is the submitted name with
surrounding whitespace trimmed, whose date, time and description equal the
submitted fields (defaulted to `""` when omitted), and whose returned id is
a non-empty string carrying the `t_` id convention. -/
theorem create_roundtrip (nowMs rand : Nat) (nowIso now2 : String)
    (hiso : nowIso ≠ "") (name : String) (hname : name ≠ "")
    (date time descr : Option String) (log' : List Line) (rid : String)
    (h : appendCreate [] nowMs rand nowIso (some name) date time descr
        = some (log', rid)) :
    projectTasks now2 log' = [{
        id := some (makeId nowMs rand), name := some (jsTrim name),
        date := some (jsOr date ""), time := some (jsOr time ""),
        description := jsOr descr "", createdAt := nowIso }]
      ∧ rid = makeId nowMs rand ∧ rid ≠ "" ∧ ∃ s, rid = "t_" ++ s := by
  have ht : truthy (some name) = true := decide_eq_true hname
  simp only [appendCreate, ht, if_true] at h
  rw [Option.some.injEq, Prod.mk.injEq] at h
  obtain ⟨hlog, hrid⟩ := h
  subst hlog
  subst hrid
  refine ⟨?_, rfl, makeId_ne_empty nowMs rand,
    ⟨toBase36 nowMs ++ ("_" ++ toBase36 rand), rfl⟩⟩
  rw [projectTasks, projectState, List.nil_append, List.foldl_cons,
      List.foldl_nil, applyLine, if_pos rfl]
  simp only [mkTask, jsOr_jsOr, Option.getD_some]
  simp [mapSet, jsOr, hiso]

/-- Witness for the amended claim C1 at a concrete input. -/
theorem create_roundtrip_witness :
    projectTasks "N" [Line.evt sampleCreate] = [{
        id := some (makeId 0 0), name := some (jsTrim "a"),
        date := some (jsOr none ""), time := some (jsOr none ""),
        description := jsOr none "", createdAt := "T" }]
      ∧ "t_0_0" = makeId 0 0 ∧ ("t_0_0" : String) ≠ ""
      ∧ ∃ s, "t_0_0" = "t_" ++ s :=
  create_roundtrip 0 0 "T" "N" (by decide) "a" (by decide) none none none
    [Line.evt sampleCreate] "t_0_0" rfl

/-- Claim C2: tombstone — whenever a task with id `i` is present in the
projection, appending a `delete` event for `i` through the delete write path
and projecting again yields a task list containing no task with id `i`. -/
theorem tombstone_delete (now dAt : String) (log : List Line) (i : String)
    (hpresent : ∃ t ∈ projectTasks now log, t.id = some i)
    (log' : List Line) (h : appendDelete log i dAt = some log') :
    ∀ t ∈ projectTasks now log', t.id ≠ some i := by
  by_cases hi : i = ""
  · rw [appendDelete, if_pos hi] at h
    exact absurd h (by simp)
  · rw [appendDelete, if_neg hi] at h
    injection h with h
    subst h
    intro t ht
    rw [projectTasks, projectState_append_one, applyLine,
        if_neg (by simp), if_pos rfl] at ht
    rcases List.mem_map.1 ht with ⟨p, hp, rfl⟩
    have hkey : ¬ (p.1 = some i) := by
      simpa using (List.mem_filter.1 hp).2
    have hidp : p.2.id = p.1 :=
      idInv_mapDelete _ _ (projectState_idInv now log) p hp
    rw [hidp]
    exact hkey

/-- Witness for claim C2 at a concrete input: after create then delete of
`t_0_0`, no projected task carries that id. -/
theorem tombstone_delete_witness :
    (projectTasks "N" [Line.evt sampleCreate, Line.evt sampleDelete]).filter
      (fun t => decide (t.id = some "t_0_0")) = [] := by
  rw [List.filter_eq_nil]
  intro t ht
  simpa using tombstone_delete "N" "D" [Line.evt sampleCreate] "t_0_0"
    ⟨mkTask "N" sampleCreate, by decide, by decide⟩
    [Line.evt sampleCreate, Line.evt sampleDelete] rfl t ht

/-- Claim C3: resurrection — an event sequence containing `create(i)`, then
`delete(i)`, then a second `create(i)` in that log order (with arbitrary
other lines interleaved before each of them) projects to exactly one live
task for `i`, built entirely from the fields of the second create event. -/
theorem resurrection (now : String) (pre mid post : List Line)
    (c1 d c2 : Evt) (i : String)
    (hc1 : c1.type = some "create") (hc1i : c1.id = some i)
    (hd : d.type = some "delete") (hdi : d.id = some i)
    (hc2 : c2.type = some "create") (hc2i : c2.id = some i) :
    (projectTasks now (pre ++ [Line.evt c1] ++ mid ++ [Line.evt d] ++ post
        ++ [Line.evt c2])).filter (fun t => decide (t.id = some i))
      = [mkTask now c2] :=
  filter_project_append_create now
    (pre ++ [Line.evt c1] ++ mid ++ [Line.evt d] ++ post) c2 i hc2 hc2i

/-- Witness for claim C3 at a concrete input. -/
theorem resurrection_witness :
    (projectTasks "N" ([] ++ [Line.evt sampleCreate] ++ [] ++ [Line.evt sampleDelete]
        ++ [] ++ [Line.evt sampleCreate2])).filter
        (fun t => decide (t.id = some "t_0_0")) = [mkTask "N" sampleCreate2] :=
  resurrection "N" [] [] [] sampleCreate sampleDelete sampleCreate2 "t_0_0"
    rfl rfl rfl rfl rfl rfl

/-- Claim C4: overwrite on recreate — when the log holds two `create` events
for the same id (the second one last, arbitrary lines before each), the
projected task for that id is built from the fields of the later event
alone; no field of the earlier event survives. -/
theorem overwrite_on_recreate (now : String) (pre mid : List Line)
    (e1 e2 : Evt) (i : String)
    (h1 : e1.type = some "create") (h1i : e1.id = some i)
    (h2 : e2.type = some "create") (h2i : e2.id = some i) :
    (projectTasks now (pre ++ [Line.evt e1] ++ mid ++ [Line.evt e2])).filter
        (fun t => decide (t.id = some i)) = [mkTask now e2] :=
  filter_project_append_create now (pre ++ [Line.evt e1] ++ mid) e2 i h2 h2i

/-- Witness for claim C4 at a concrete input. -/
theorem overwrite_on_recreate_witness :
    (projectTasks "N" ([] ++ [Line.evt sampleCreate] ++ []
        ++ [Line.evt sampleCreate2])).filter
        (fun t => decide (t.id = some "t_0_0")) = [mkTask "N" sampleCreate2] :=
  overwrite_on_recreate "N" [] [] sampleCreate sampleCreate2 "t_0_0"
    rfl rfl rfl rfl

/-- Claim C5: corruption tolerance — a log holding one unparsable line
between two valid `create` events for distinct ids projects to exactly the
two valid tasks, and equals the projection with the bad line removed; the
projection is a total function, so no error reaches the caller. -/
theorem corruption_tolerance (now raw : String) (e1 e2 : Evt)
    (h1 : e1.type = some "create") (h2 : e2.type = some "create")
    (hne : e1.id ≠ e2.id) :
    projectTasks now [Line.evt e1, Line.bad raw, Line.evt e2]
        = [mkTask now e1, mkTask now e2]
      ∧ projectTasks now [Line.evt e1, Line.bad raw, Line.evt e2]
        = projectTasks now [Line.evt e1, Line.evt e2] := by
  constructor <;>
    simp [projectTasks, projectState, applyLine, mapSet, h1, h2, hne]

/-- Witness for claim C5 at a concrete input. -/
theorem corruption_tolerance_witness :
    (projectTasks "N" [Line.evt sampleCreate, Line.bad "not json", Line.evt sampleOther]
        = [mkTask "N" sampleCreate, mkTask "N" sampleOther])
      ∧ projectTasks "N" [Line.evt sampleCreate, Line.bad "not json", Line.evt sampleOther]
        = projectTasks "N" [Line.evt sampleCreate, Line.evt sampleOther] :=
  corruption_tolerance "N" "not json" sampleCreate sampleOther rfl rfl (by decide)

/-- Claim C6: deleting an unknown id is a no-op on the output — if no
`create` event in the log carries id `i`, appending a `delete` event for `i`
leaves the projected task list unchanged. -/
theorem delete_unknown_noop (now : String) (log : List Line) (d : Evt)
    (i : String) (hdt : d.type = some "delete") (hdi : d.id = some i)
    (hno : ∀ e, Line.evt e ∈ log → e.type = some "create" → e.id ≠ some i) :
    projectTasks now (log ++ [Line.evt d]) = projectTasks now log := by
  rw [projectTasks, projectTasks, projectState_append_one, applyLine,
      if_neg (by rw [hdt]; simp), if_pos hdt, hdi]
  show (mapDelete (projectState now log).tasks (some i)).map Prod.snd
    = (projectState now log).tasks.map Prod.snd
  have habs : some i ∉ keysOf (projectState now log).tasks :=
    foldl_key_absent now log (some i) ⟨[], []⟩ (by simp [keysOf]) hno
  rw [mapDelete_of_not_mem _ _ habs]

/-- Witness for claim C6 at a concrete input. -/
theorem delete_unknown_noop_witness :
    projectTasks "N" ([Line.evt sampleOther] ++ [Line.evt sampleDelete])
      = projectTasks "N" [Line.evt sampleOther] :=
  delete_unknown_noop "N" [Line.evt sampleOther] sampleDelete "t_0_0" rfl rfl
    (by
      intro e he hc
      have h1 : Line.evt e = Line.evt sampleOther := List.mem_singleton.1 he
      injection h1 with h1
      subst h1
      decide)

/-- Claim C7: unknown event types are ignored — projecting any log equals
projecting the log with every valid-JSON line whose type is neither
`create` nor `delete` removed (unparsable lines are kept: their skipping is
separate behaviour). -/
theorem unknown_types_ignored (now : String) (ls : List Line) :
    projectTasks now ls = projectTasks now (ls.filter handled) := by
  rw [projectTasks, projectTasks, projectState, projectState,
      foldl_filter_handled]

/-- Claim C8: a missing log file reads as the empty task list, and the store
creates the file with empty contents as a side effect instead of failing,
for any parse function and clock. -/
theorem missing_file_created_empty (parse : String → Option Evt) (now : String) :
    readProjection parse now none = (some "", []) := rfl

/-- Claim C9: the deleted-id set is write-only — the projection computed by
the fold that accumulates it equals, on every event sequence, the one
computed by the otherwise identical fold with the set removed. -/
theorem delete_set_irrelevant (now : String) (ls : List Line) :
    projectTasks now ls = projectTasksNoSet now ls := by
  rw [projectTasks, projectTasksNoSet, projectState, foldl_tasks_noset]

/-- Claim C10: every create request accepted by the write path stores, in
the appended `create` event and hence in the task the projection builds from
it, the submitted name with leading and trailing whitespace removed. -/
theorem create_trims_name (log : List Line) (nowMs rand : Nat) (nowIso : String)
    (name date time descr : Option String) (log' : List Line) (rid : String)
    (h : appendCreate log nowMs rand nowIso name date time descr
        = some (log', rid)) :
    ∃ e : Evt, log' = log ++ [Line.evt e] ∧ e.type = some "create"
      ∧ e.name = some (jsTrim (name.getD ""))
      ∧ ∀ now2, (mkTask now2 e).name = some (jsTrim (name.getD "")) := by
  by_cases ht : truthy name = true
  · simp only [appendCreate, ht, if_true] at h
    rw [Option.some.injEq, Prod.mk.injEq] at h
    obtain ⟨hlog, hrid⟩ := h
    exact ⟨_, hlog.symm, rfl, rfl, fun now2 => rfl⟩
  · rw [appendCreate, if_neg ht] at h
    exact absurd h (by simp)

/-- Witness for claim C10 at a concrete input. -/
theorem create_trims_name_witness :
    ∃ e : Evt, ([Line.evt sampleCreate] : List Line) = [] ++ [Line.evt e]
      ∧ e.type = some "create" ∧ e.name = some (jsTrim ((some " a ").getD ""))
      ∧ ∀ now2, (mkTask now2 e).name = some (jsTrim ((some " a ").getD "")) :=
  create_trims_name [] 0 0 "T" (some " a ") none none none
    [Line.evt sampleCreate] "t_0_0" rfl

end TaskTracker
